import Mathlib

/-!
Verification of the pypig package-index client core: the filename parser
(`WheelPackage` / `SourcePackage`), the package filter
(`get_filtered_packages`), and the table formatter (`print_package_list`),
shallowly embedded from `src/pypig/pypig.py`.
-/

namespace Pypig

/-- A parsed package record.  Field order mirrors the assignment order in
`Package.__init__` (pypig.py lines 55-62): name, version, platform, python,
abi, type. -/
structure Package where
  name : String
  version : String
  platform : String
  python : String
  abi : String
  type : String
deriving DecidableEq, Repr

/-- Split off everything before the first occurrence of `sep`:
`splitFirst sep cs = some (a, b)` when `cs = a ++ sep :: b` with `sep ∉ a`,
`none` when `sep` does not occur.  This models one splitting step of
Python's `str.split(sep, maxsplit)`. -/
def splitFirst (sep : Char) : List Char → Option (List Char × List Char)
  | [] => none
  | c :: rest =>
    if c = sep then some ([], rest)
    else (splitFirst sep rest).map (fun p => (c :: p.1, p.2))

/-- Python's `str.split(sep, maxsplit=n)` on a list of characters: split at
the leftmost separator at most `n` times, keeping empty pieces. -/
def splitMax (sep : Char) : Nat → List Char → List (List Char)
  | 0, cs => [cs]
  | Nat.succ n, cs =>
    match splitFirst sep cs with
    | none => [cs]
    | some (a, b) => a :: splitMax sep n b

/-- Python's `filename[::-1].split(sep, maxsplit=n)`, each piece reversed
again and the list of pieces reversed — i.e. `str.rsplit(sep, maxsplit=n)`,
exactly as spelled in pypig.py lines 85 and 91. -/
def rsplitMax (sep : Char) (n : Nat) (s : String) : List String :=
  ((splitMax sep n s.data.reverse).map (fun l => String.mk l.reverse)).reverse

/-- `WheelPackage.__init__` (pypig.py lines 83-86): right-split the
extension-stripped filename on `-` with maxsplit 4 and feed the five parts
positionally to `Package.__init__` together with filetype `"wheel"`.
Fewer than five parts makes the Python call crash (too few arguments);
that failure is modelled as `none`. -/
def parseWheel (filename : String) : Option Package :=
  match rsplitMax '-' 4 filename with
  | [n, v, pt, ab, pl] => some ⟨n, v, pl, pt, ab, "wheel"⟩
  | _ => none

/-- `SourcePackage.__init__` (pypig.py lines 89-92): right-split the
extension-stripped filename on `-` with maxsplit 1; `tags[0]` is the name,
`tags[1]` the version, and the remaining fields are the constants
`"py3"`, `"none"`, `"any"`, `"sdist"`.  A filename without `-` makes the
Python indexing `tags[1]` crash; that failure is modelled as `none`. -/
def parseSdist (filename : String) : Option Package :=
  match rsplitMax '-' 1 filename with
  | [n, v] => some ⟨n, v, "any", "py3", "none", "sdist"⟩
  | _ => none

/-- Python's unbounded `str.split(sep)`: a budget of `cs.length` splits is
never exhausted, so this is the unlimited split. -/
def splitAll (sep : Char) (cs : List Char) : List (List Char) :=
  splitMax sep cs.length cs

/-- `pyver_convert` (pypig.py line 149): `"cp{}{}".format(*x.split("."))`.
With fewer than two `.`-separated parts the format call crashes
(`IndexError`), modelled as `none`; extra parts are ignored by `format`. -/
def pyver_convert (x : String) : Option String :=
  match splitAll '.' x.data with
  | a :: b :: _ => some ("cp" ++ String.mk a ++ String.mk b)
  | _ => none

/-- Python's `<=` on strings, character by character: the first differing
character decides, and a prefix compares below any extension. -/
def charListLe : List Char → List Char → Bool
  | [], _ => true
  | _ :: _, [] => false
  | a :: as, b :: bs => if a = b then charListLe as bs else decide (a < b)

/-- Python's lexicographic `<=` on strings. -/
def pyStrLe (a b : String) : Bool := charListLe a.data b.data

/-- The version predicate of `get_filtered_packages` (pypig.py lines
153-159): one value means exact match, otherwise
`args.version[0] <= x.version <= args.version[1]` by (lexicographic)
string comparison. -/
def version_pred (vs : List String) (x : Package) : Bool :=
  if vs.length == 1 then x.version == vs.headD ""
  else pyStrLe (vs.headD "") x.version && pyStrLe x.version (vs.getD 1 "")

/-- The platform predicate of `get_filtered_packages` (pypig.py lines
165-168): `args.platform in x.platform or x.platform == "any"`;
Python's `in` on strings is substring containment. -/
def plat_pred (p : String) (x : Package) : Bool :=
  decide (p.data <:+: x.platform.data) || x.platform == "any"

/-- Python truthiness of an optional string argument: `None` and `""` are
falsy. -/
def truthyStr : Option String → Bool
  | none => false
  | some s => !(s == "")

/-- Python truthiness of an optional list argument: `None` and `[]` are
falsy. -/
def truthyList : Option (List String) → Bool
  | none => false
  | some l => !l.isEmpty

/-- The optional filter fields consumed by `get_filtered_packages`
(`args.name`, `args.version`, `args.pyver`, `args.platform`). -/
structure FilterArgs where
  name : Option String
  version : Option (List String)
  pyver : Option String
  platform : Option String

/-- The filter chain of `get_filtered_packages` (pypig.py lines 149-170),
applied to an already-parsed package list.  Each filter is guarded by the
Python truthiness of its argument.  `pyver_convert` crashing on a
malformed `--pyver` value is modelled as `none`. -/
def get_filtered (a : FilterArgs) (ps : List Package) : Option (List Package) :=
  let ps1 := if truthyStr a.name then ps.filter (fun x => x.name == a.name.getD "") else ps
  let ps2 := if truthyList a.version then ps1.filter (version_pred (a.version.getD [])) else ps1
  match (if truthyStr a.pyver then
           (pyver_convert (a.pyver.getD "")).map
             (fun cp => ps2.filter (fun x => x.python == cp))
         else some ps2) with
  | none => none
  | some ps3 =>
    some (if truthyStr a.platform then ps3.filter (plat_pred (a.platform.getD "")) else ps3)

/-- The recognized extensions and their parsers, in the insertion order of
the `extensions` dict (pypig.py line 141). -/
def extensionList : List (String × (String → Option Package)) :=
  [(".whl", parseWheel), (".tar.gz", parseSdist)]

/-- Python's `l.endswith(ex)`, character-based. -/
def strEndsWith (s t : String) : Bool := decide (t.data <:+ s.data)

/-- Python's `l[:-n]`: all but the last `n` characters. -/
def strDropRight (s : String) (n : Nat) : String :=
  String.mk (s.data.take (s.data.length - n))

/-- One listing entry produces one parse attempt per matching extension
(pypig.py lines 142-147), on the filename with the extension stripped. -/
def entryParses (l : String) : List (Option Package) :=
  (extensionList.filter (fun e => strEndsWith l e.1)).map
    (fun e => e.2 (strDropRight l e.1.length))

/-- Sequence parse attempts: any crashing parse aborts the whole listing
operation (the Python generator would raise through `list(packages)`). -/
def seqOpts : List (Option Package) → Option (List Package)
  | [] => some []
  | none :: _ => none
  | some p :: rest => (seqOpts rest).map (fun l => p :: l)

/-- Parse a whole listing of filenames: entries with an unrecognized
extension are skipped, a recognized entry that fails to parse aborts. -/
def collectPackages : List String → Option (List Package)
  | [] => some []
  | l :: ls =>
    match seqOpts (entryParses l), collectPackages ls with
    | some ps, some rest => some (ps ++ rest)
    | _, _ => none

/-- The display attributes `attrs` of `print_package_list`
(pypig.py line 110). -/
def attrNames : List String := ["name", "version", "python", "platform", "type"]

/-- Python's `max` over a list of naturals (the lists folded here are
never empty, so the `0` seed is inert). -/
def pymax (l : List Nat) : Nat := l.foldl max 0

/-- The `titlepackage` header record (pypig.py line 113):
`Package("name", "version", "python", "abi", "platform", "type")`. -/
def titlepackage : Package := ⟨"name", "version", "platform", "python", "abi", "type"⟩

/-- The separator cell (pypig.py line 114): `"=" * max(len(x) for x in attrs)`,
i.e. eight `=` characters. -/
def sepCell : String := String.mk (List.replicate (pymax (attrNames.map String.length)) '=')

/-- The `sepackage` separator record (pypig.py line 114): the separator
cell in all six fields. -/
def sepackage : Package := ⟨sepCell, sepCell, sepCell, sepCell, sepCell, sepCell⟩

/-- The displayed cells of a record, in `attrs` order. -/
def displayRow (p : Package) : List String := [p.name, p.version, p.python, p.platform, p.type]

/-- Maximum display length of one attribute over a list of records. -/
def colMax (sel : Package → String) (packs : List Package) : Nat :=
  pymax (packs.map (fun p => (sel p).length))

/-- The column widths of `print_package_list` (pypig.py line 116): the
maximum attribute length over `[titlepackage, sepackage] + packages`. -/
def tableWidths (ps : List Package) : List Nat :=
  [colMax (fun p => p.name) (titlepackage :: sepackage :: ps),
   colMax (fun p => p.version) (titlepackage :: sepackage :: ps),
   colMax (fun p => p.python) (titlepackage :: sepackage :: ps),
   colMax (fun p => p.platform) (titlepackage :: sepackage :: ps),
   colMax (fun p => p.type) (titlepackage :: sepackage :: ps)]

/-- Python's `"{:>{width}}".format(s)`: right-align by left-padding with
spaces, never truncating. -/
def padLeft (w : Nat) (s : String) : String :=
  String.mk (List.replicate (w - s.length) ' ') ++ s

/-- One table row (pypig.py lines 117-123): the padded cells joined by a
single space. -/
def renderRow (ws : List Nat) (cells : List String) : String :=
  String.intercalate " " (List.zipWith padLeft ws cells)

/-- The rendered table of `print_package_list` (pypig.py lines 110-125):
header row, separator row, then one row per record, joined by newlines. -/
def render_table (ps : List Package) : String :=
  String.intercalate "\n"
    ((titlepackage :: sepackage :: ps).map (fun p => renderRow (tableWidths ps) (displayRow p)))

/-- Modelled from the spec's words for claim C9: column widths as "the
maximum length of any value in that column, including the header text" —
i.e. over the header row and the data rows only, without the separator
row.  To be compared against `tableWidths`. -/
def claimWidths (ps : List Package) : List Nat :=
  [colMax (fun p => p.name) (titlepackage :: ps),
   colMax (fun p => p.version) (titlepackage :: ps),
   colMax (fun p => p.python) (titlepackage :: ps),
   colMax (fun p => p.platform) (titlepackage :: ps),
   colMax (fun p => p.type) (titlepackage :: ps)]

/-- Modelled from the spec's words for claim C9: the table rendered with
`claimWidths`.  To be compared against `render_table`. -/
def claimTable (ps : List Package) : String :=
  String.intercalate "\n"
    ((titlepackage :: sepackage :: ps).map (fun p => renderRow (claimWidths ps) (displayRow p)))

/-- The column widths as the amended claim C9 describes them: the maximum
of the header-text length, the 8-character separator cell, and the data
values of the column. -/
def specWidths (ps : List Package) : List Nat :=
  [max 4 (max 8 (colMax (fun p => p.name) ps)),
   max 7 (max 8 (colMax (fun p => p.version) ps)),
   max 6 (max 8 (colMax (fun p => p.python) ps)),
   max 8 (max 8 (colMax (fun p => p.platform) ps)),
   max 4 (max 8 (colMax (fun p => p.type) ps))]

/-- The table as the amended claim C9 describes it: a header row
(`name`, `version`, `python`, `platform`, `type`), a separator row of
eight `=` characters per column, then one row per record, every cell
right-aligned to the `specWidths` column width. -/
def specTable (ps : List Package) : String :=
  String.intercalate "\n"
    (renderRow (specWidths ps) ["name", "version", "python", "platform", "type"] ::
     renderRow (specWidths ps) ["========", "========", "========", "========", "========"] ::
     ps.map (fun p => renderRow (specWidths ps) (displayRow p)))

/-- The observable outcome of the `list` command's reporting step. -/
inductive ListOutcome where
  | exited (message : String) (exitCode : Nat)
  | table (rendered : String)
deriving DecidableEq, Repr

/-- `print_package_list` (pypig.py lines 106-125): an empty record list
prints "No packages found matching filters" and exits with status 1;
otherwise the table is rendered. -/
def print_package_list (ps : List Package) : ListOutcome :=
  if ps.isEmpty then ListOutcome.exited "No packages found matching filters" 1
  else ListOutcome.table (render_table ps)

theorem mk_data (s : String) : String.mk s.data = s := rfl

theorem splitFirst_eq_none {sep : Char} {cs : List Char} :
    splitFirst sep cs = none ↔ sep ∉ cs := by
  induction cs with
  | nil => simp [splitFirst]
  | cons c rest ih =>
    by_cases hc : c = sep
    · subst hc
      simp [splitFirst]
    · simp [splitFirst, hc, Option.map_eq_none', ih, Ne.symm hc]

theorem splitFirst_eq_some {sep : Char} {cs a b : List Char}
    (h : splitFirst sep cs = some (a, b)) : cs = a ++ sep :: b ∧ sep ∉ a := by
  induction cs generalizing a with
  | nil => simp [splitFirst] at h
  | cons c rest ih =>
    by_cases hc : c = sep
    · subst hc
      simp only [splitFirst, if_pos rfl, Option.some.injEq, Prod.mk.injEq] at h
      rcases h with ⟨rfl, rfl⟩
      simp
    · simp only [splitFirst, if_neg hc, Option.map_eq_some'] at h
      obtain ⟨⟨a', b'⟩, hsf, heq⟩ := h
      simp only [Prod.mk.injEq] at heq
      rcases heq with ⟨rfl, rfl⟩
      obtain ⟨hrest, hmem⟩ := ih hsf
      constructor
      · simp [hrest]
      · simp [List.mem_cons, hmem, Ne.symm hc]

theorem splitFirst_append {sep : Char} {a : List Char} (b : List Char)
    (h : sep ∉ a) : splitFirst sep (a ++ sep :: b) = some (a, b) := by
  induction a with
  | nil => simp [splitFirst]
  | cons c a' ih =>
    have hc : ¬c = sep := fun hcc => h (hcc ▸ List.mem_cons_self c a')
    have hmem : sep ∉ a' := fun hm => h (List.mem_cons_of_mem c hm)
    simp [splitFirst, hc, ih hmem]

theorem splitMax_append {sep : Char} {a : List Char} (n : Nat) (b : List Char)
    (h : sep ∉ a) : splitMax sep (n + 1) (a ++ sep :: b) = a :: splitMax sep n b := by
  simp [splitMax, splitFirst_append b h]

theorem splitMax_of_not_mem {sep : Char} {cs : List Char} (n : Nat)
    (h : sep ∉ cs) : splitMax sep n cs = [cs] := by
  cases n with
  | zero => rfl
  | succ k => simp [splitMax, splitFirst_eq_none.mpr h]

theorem splitMax_length (sep : Char) (n : Nat) (cs : List Char) :
    (splitMax sep n cs).length = min (n + 1) (cs.count sep + 1) := by
  induction n generalizing cs with
  | zero =>
    simp only [splitMax, List.length_cons, List.length_nil]
    omega
  | succ k ih =>
    cases hsf : splitFirst sep cs with
    | none =>
      have hmem : sep ∉ cs := splitFirst_eq_none.mp hsf
      have hcount : cs.count sep = 0 := List.count_eq_zero.mpr hmem
      simp [splitMax, hsf, hcount]
    | some p =>
      obtain ⟨a, b⟩ := p
      obtain ⟨hcs, hmem⟩ := splitFirst_eq_some hsf
      have hcount : cs.count sep = b.count sep + 1 := by
        rw [hcs]
        simp [List.count_append, List.count_eq_zero.mpr hmem]
      simp only [splitMax, hsf, List.length_cons, ih b, hcount]
      omega

theorem splitMax_congr {sep : Char} {m n : Nat} {cs : List Char}
    (hm : cs.count sep ≤ m) (hn : cs.count sep ≤ n) :
    splitMax sep m cs = splitMax sep n cs := by
  induction m generalizing n cs with
  | zero =>
    have hmem : sep ∉ cs := List.count_eq_zero.mp (Nat.le_zero.mp hm)
    rw [splitMax_of_not_mem 0 hmem, splitMax_of_not_mem n hmem]
  | succ k ih =>
    cases n with
    | zero =>
      have hmem : sep ∉ cs := List.count_eq_zero.mp (Nat.le_zero.mp hn)
      rw [splitMax_of_not_mem (k + 1) hmem, splitMax_of_not_mem 0 hmem]
    | succ j =>
      cases hsf : splitFirst sep cs with
      | none => simp [splitMax, hsf]
      | some p =>
        obtain ⟨a, b⟩ := p
        obtain ⟨hcs, hmem⟩ := splitFirst_eq_some hsf
        have hcount : cs.count sep = b.count sep + 1 := by
          rw [hcs]
          simp [List.count_append, List.count_eq_zero.mpr hmem]
        have h1 : b.count sep ≤ k := by omega
        have h2 : b.count sep ≤ j := by omega
        simp [splitMax, hsf, ih h1 h2]

theorem rsplitMax_length (sep : Char) (n : Nat) (s : String) :
    (rsplitMax sep n s).length = min (n + 1) (s.data.count sep + 1) := by
  simp [rsplitMax, splitMax_length, List.count_reverse]

theorem dash_data : ("-" : String).data = ['-'] := rfl

theorem dot_data : ("." : String).data = ['.'] := rfl

theorem rsplitMax_two (n v : String) (hv : '-' ∉ v.data) :
    rsplitMax '-' 1 (n ++ "-" ++ v) = [n, v] := by
  have hdata : (n ++ "-" ++ v).data = n.data ++ '-' :: v.data := by
    simp [String.data_append, dash_data]
  have hrev : (n ++ "-" ++ v).data.reverse = v.data.reverse ++ '-' :: n.data.reverse := by
    simp [hdata, List.reverse_append]
  have hv' : '-' ∉ v.data.reverse := by simpa [List.mem_reverse] using hv
  unfold rsplitMax
  rw [hrev, splitMax_append 0 _ hv']
  simp [splitMax, mk_data]

theorem rsplitMax_five (n v pt ab pl : String) (hv : '-' ∉ v.data)
    (hpt : '-' ∉ pt.data) (hab : '-' ∉ ab.data) (hpl : '-' ∉ pl.data) :
    rsplitMax '-' 4 (n ++ "-" ++ v ++ "-" ++ pt ++ "-" ++ ab ++ "-" ++ pl) =
      [n, v, pt, ab, pl] := by
  have hdata : (n ++ "-" ++ v ++ "-" ++ pt ++ "-" ++ ab ++ "-" ++ pl).data =
      n.data ++ '-' :: (v.data ++ '-' :: (pt.data ++ '-' :: (ab.data ++ '-' :: pl.data))) := by
    simp [String.data_append, dash_data]
  have hrev : (n ++ "-" ++ v ++ "-" ++ pt ++ "-" ++ ab ++ "-" ++ pl).data.reverse =
      pl.data.reverse ++ '-' :: (ab.data.reverse ++ '-' :: (pt.data.reverse ++ '-' ::
        (v.data.reverse ++ '-' :: n.data.reverse))) := by
    simp [hdata, List.reverse_append]
  have hv' : '-' ∉ v.data.reverse := by simpa [List.mem_reverse] using hv
  have hpt' : '-' ∉ pt.data.reverse := by simpa [List.mem_reverse] using hpt
  have hab' : '-' ∉ ab.data.reverse := by simpa [List.mem_reverse] using hab
  have hpl' : '-' ∉ pl.data.reverse := by simpa [List.mem_reverse] using hpl
  unfold rsplitMax
  rw [hrev, splitMax_append 3 _ hpl', splitMax_append 2 _ hab',
    splitMax_append 1 _ hpt', splitMax_append 0 _ hv']
  simp [splitMax, mk_data]

/-- C1: for every wheel filename (extension already stripped) of the shape
`name-version-pythonTag-abiTag-platform` in which the four trailing tag
fields contain no `-` (the name prefix may contain `-`), the wheel parser
returns the record with exactly those five fields, in order, with
filetype `wheel`. -/
theorem wheel_parse_recovers_fields (n v pt ab pl : String) (hv : '-' ∉ v.data)
    (hpt : '-' ∉ pt.data) (hab : '-' ∉ ab.data) (hpl : '-' ∉ pl.data) :
    parseWheel (n ++ "-" ++ v ++ "-" ++ pt ++ "-" ++ ab ++ "-" ++ pl) =
      some ⟨n, v, pl, pt, ab, "wheel"⟩ := by
  rw [parseWheel, rsplitMax_five n v pt ab pl hv hpt hab hpl]

theorem wheel_parse_recovers_fields_witness :
    ('-' ∉ ("0.5.3" : String).data) ∧
      parseWheel ("my-pkg" ++ "-" ++ "0.5.3" ++ "-" ++ "cp38" ++ "-" ++ "none" ++ "-" ++
          "linux_x86_64") =
        some ⟨"my-pkg", "0.5.3", "linux_x86_64", "cp38", "none", "wheel"⟩ :=
  ⟨by decide,
   wheel_parse_recovers_fields "my-pkg" "0.5.3" "cp38" "none" "linux_x86_64"
     (by decide) (by decide) (by decide) (by decide)⟩

/-- C2: for every sdist filename (extension already stripped) of the shape
`name-version` whose version token contains no `-` (the name may contain
`-`), the sdist parser returns the record with that name and version,
pythonTag `py3`, abiTag `none`, platform `any` and filetype `sdist`. -/
theorem sdist_parse_recovers_fields (n v : String) (hv : '-' ∉ v.data) :
    parseSdist (n ++ "-" ++ v) = some ⟨n, v, "any", "py3", "none", "sdist"⟩ := by
  rw [parseSdist, rsplitMax_two n v hv]

theorem sdist_parse_recovers_fields_witness :
    ('-' ∉ ("0.5.3" : String).data) ∧
      parseSdist ("pytket-extras" ++ "-" ++ "0.5.3") =
        some ⟨"pytket-extras", "0.5.3", "any", "py3", "none", "sdist"⟩ :=
  ⟨by decide, sdist_parse_recovers_fields "pytket-extras" "0.5.3" (by decide)⟩

/-- C3: the filename parser fails exactly on inputs outside its grammar:
the wheel parser yields no record precisely when the filename has fewer
than four `-` delimiters (right-to-left splitting yields fewer than five
parts), and the sdist parser yields no record precisely when the
filename has no `-` at all. -/
theorem parse_fails_iff_grammar (f : String) :
    (parseWheel f = none ↔ f.data.count '-' < 4) ∧
      (parseSdist f = none ↔ '-' ∉ f.data) := by
  have hw : (rsplitMax '-' 4 f).length = min 5 (f.data.count '-' + 1) :=
    rsplitMax_length '-' 4 f
  have hs : (rsplitMax '-' 1 f).length = min 2 (f.data.count '-' + 1) :=
    rsplitMax_length '-' 1 f
  constructor
  · rcases hl : rsplitMax '-' 4 f with
        _ | ⟨a, _ | ⟨b, _ | ⟨c, _ | ⟨d, _ | ⟨e, _ | ⟨x, rest⟩⟩⟩⟩⟩⟩ <;>
      rw [hl] at hw <;> simp only [List.length_cons, List.length_nil] at hw <;>
      simp [parseWheel, hl] <;> omega
  · rw [← List.count_eq_zero]
    rcases hl : rsplitMax '-' 1 f with _ | ⟨a, _ | ⟨b, _ | ⟨x, rest⟩⟩⟩ <;>
      rw [hl] at hs <;> simp only [List.length_cons, List.length_nil] at hs <;>
      simp [parseSdist, hl] <;> omega

/-- C4 counterexample: the parser accepts the sdist filename `pkg-` and
produces a record whose version field is the empty string, so not every
accepted filename yields a record with six non-empty fields. -/
theorem parsed_fields_nonempty_counterexample :
    parseSdist "pkg-" = some ⟨"pkg", "", "any", "py3", "none", "sdist"⟩ ∧
      ("" : String).length = 0 :=
  ⟨rfl, rfl⟩

/-- C4 (amended): every record the parser produces whose underlying
`-`-split tokens are all non-empty has six non-empty string fields, and
its kind field is the parser's constant (`wheel` or `sdist`). -/
theorem parsed_fields_nonempty (f : String) (p : Package)
    (h : parseWheel f = some p ∧ (∀ s ∈ rsplitMax '-' 4 f, s ≠ "") ∨
      parseSdist f = some p ∧ (∀ s ∈ rsplitMax '-' 1 f, s ≠ "")) :
    p.name ≠ "" ∧ p.version ≠ "" ∧ p.python ≠ "" ∧ p.abi ≠ "" ∧
      p.platform ≠ "" ∧ (p.type = "wheel" ∨ p.type = "sdist") := by
  rcases h with ⟨hp, htok⟩ | ⟨hp, htok⟩
  · rcases hl : rsplitMax '-' 4 f with
        _ | ⟨a, _ | ⟨b, _ | ⟨c, _ | ⟨d, _ | ⟨e, _ | ⟨x, rest⟩⟩⟩⟩⟩⟩ <;>
      rw [parseWheel, hl] at hp <;> cases hp
    rw [hl] at htok
    simp only [List.mem_cons, List.not_mem_nil] at htok
    refine ⟨htok a (by tauto), htok b (by tauto), htok c (by tauto),
      htok d (by tauto), htok e (by tauto), Or.inl rfl⟩
  · rcases hl : rsplitMax '-' 1 f with _ | ⟨a, _ | ⟨b, _ | ⟨x, rest⟩⟩⟩ <;>
      rw [parseSdist, hl] at hp <;> cases hp
    rw [hl] at htok
    simp only [List.mem_cons, List.not_mem_nil] at htok
    exact ⟨htok a (by tauto), htok b (by tauto), by simp, by simp, by simp, Or.inr rfl⟩

theorem parsed_fields_nonempty_witness :
    (parseWheel "a-1-cp38-none-any" = some ⟨"a", "1", "any", "cp38", "none", "wheel"⟩) ∧
      (⟨"a", "1", "any", "cp38", "none", "wheel"⟩ : Package).name ≠ "" ∧
      (⟨"a", "1", "any", "cp38", "none", "wheel"⟩ : Package).version ≠ "" ∧
      (⟨"a", "1", "any", "cp38", "none", "wheel"⟩ : Package).python ≠ "" ∧
      (⟨"a", "1", "any", "cp38", "none", "wheel"⟩ : Package).abi ≠ "" ∧
      (⟨"a", "1", "any", "cp38", "none", "wheel"⟩ : Package).platform ≠ "" ∧
      ((⟨"a", "1", "any", "cp38", "none", "wheel"⟩ : Package).type = "wheel" ∨
        (⟨"a", "1", "any", "cp38", "none", "wheel"⟩ : Package).type = "sdist") :=
  ⟨by decide,
   parsed_fields_nonempty "a-1-cp38-none-any" ⟨"a", "1", "any", "cp38", "none", "wheel"⟩
     (Or.inl ⟨by decide, by decide⟩)⟩

theorem charListLe_iff (as bs : List Char) :
    charListLe as bs = true ↔ ¬List.Lex (· < ·) bs as := by
  induction as generalizing bs with
  | nil =>
    cases bs <;> simp [charListLe, List.Lex.not_nil_right]
  | cons a as ih =>
    cases bs with
    | nil =>
      exact iff_of_false (by simp [charListLe]) (fun h => h List.Lex.nil)
    | cons b bs =>
      by_cases hab : a = b
      · subst hab
        rw [show charListLe (a :: as) (a :: bs) = charListLe as bs from by
          simp [charListLe]]
        rw [ih bs, List.Lex.cons_iff]
      · simp only [charListLe, if_neg hab, decide_eq_true_eq]
        constructor
        · intro hlt hlex
          cases hlex with
          | cons h => exact hab rfl
          | rel h => exact absurd hlt (asymm h)
        · intro hnlex
          rcases lt_trichotomy a b with h | h | h
          · exact h
          · exact absurd h hab
          · exact absurd (List.Lex.rel h) hnlex

theorem pyStrLe_iff (a b : String) : pyStrLe a b = true ↔ a ≤ b := by
  rw [String.le_iff_toList_le, ← not_lt]
  exact charListLe_iff a.data b.data

theorem splitAll_append {sep : Char} {a : List Char} (b : List Char) (h : sep ∉ a) :
    splitAll sep (a ++ sep :: b) = a :: splitAll sep b := by
  unfold splitAll
  have hlen : (a ++ sep :: b).length = (a.length + b.length) + 1 := by
    simp [List.length_append]
    omega
  rw [hlen, splitMax_append (a.length + b.length) b h]
  congr 1
  exact splitMax_congr
    (Nat.le_trans (List.count_le_length _ _) (Nat.le_add_left _ _))
    (List.count_le_length _ _)

theorem splitAll_of_not_mem {sep : Char} {cs : List Char} (h : sep ∉ cs) :
    splitAll sep cs = [cs] :=
  splitMax_of_not_mem _ h

theorem pyver_convert_eq {x y : String} (hx : '.' ∉ x.data) (hy : '.' ∉ y.data) :
    pyver_convert (x ++ "." ++ y) = some ("cp" ++ x ++ y) := by
  have hdata : (x ++ "." ++ y).data = x.data ++ '.' :: y.data := by
    simp [String.data_append, dot_data]
  rw [pyver_convert, hdata, splitAll_append _ hx, splitAll_of_not_mem hy]

/-- C5: the single-value version filter keeps exactly the records whose
version equals the given value, and the two-value filter keeps exactly the
records with `low <= version <= high` under lexicographic string
comparison, inclusively; concretely `0.5.3` lies inside the range
`[0.5.2, 0.5.4]` and `0.5.5` does not. -/
theorem version_filter_spec (ps : List Package) (v lo hi : String) (p : Package) :
    get_filtered ⟨none, some [v], none, none⟩ ps = some (ps.filter (version_pred [v])) ∧
      (p ∈ ps.filter (version_pred [v]) ↔ p ∈ ps ∧ p.version = v) ∧
      get_filtered ⟨none, some [lo, hi], none, none⟩ ps =
        some (ps.filter (version_pred [lo, hi])) ∧
      (p ∈ ps.filter (version_pred [lo, hi]) ↔
        p ∈ ps ∧ lo ≤ p.version ∧ p.version ≤ hi) ∧
      version_pred ["0.5.2", "0.5.4"] ⟨"pytket", "0.5.3", "any", "py3", "none", "sdist"⟩ =
        true ∧
      version_pred ["0.5.2", "0.5.4"] ⟨"pytket", "0.5.5", "any", "py3", "none", "sdist"⟩ =
        false := by
  refine ⟨?_, ?_, ?_, ?_, by decide, by decide⟩
  · simp [get_filtered, truthyStr, truthyList]
  · rw [List.mem_filter]
    simp [version_pred]
  · simp [get_filtered, truthyStr, truthyList]
  · rw [List.mem_filter]
    simp [version_pred, Bool.and_eq_true, pyStrLe_iff]

/-- C6: a `--pyver` value of the form `X.Y` is converted to the tag
`cp` ++ X ++ Y and the filter keeps exactly the records whose pythonTag
equals that tag; end to end, the listing entries
`pytket-0.5.3-cp38-none-linux_x86_64.whl` and `pytket-0.5.3.tar.gz`
filtered by name `pytket` and pyver `3.8` yield exactly the wheel record,
whose pythonTag is `cp38`. -/
theorem pyver_filter_spec (x y : String) (hx : '.' ∉ x.data) (hy : '.' ∉ y.data)
    (ps : List Package) (p : Package) :
    pyver_convert (x ++ "." ++ y) = some ("cp" ++ x ++ y) ∧
      get_filtered ⟨none, none, some (x ++ "." ++ y), none⟩ ps =
        some (ps.filter (fun q => q.python == "cp" ++ x ++ y)) ∧
      (p ∈ ps.filter (fun q => q.python == "cp" ++ x ++ y) ↔
        p ∈ ps ∧ p.python = "cp" ++ x ++ y) ∧
      (collectPackages ["pytket-0.5.3-cp38-none-linux_x86_64.whl", "pytket-0.5.3.tar.gz"]).bind
          (get_filtered ⟨some "pytket", none, some "3.8", none⟩) =
        some [⟨"pytket", "0.5.3", "linux_x86_64", "cp38", "none", "wheel"⟩] := by
  refine ⟨pyver_convert_eq hx hy, ?_, ?_, by decide⟩
  · have hne : ¬(x ++ "." ++ y) = "" := by
      intro h
      have hd : (x ++ "." ++ y).data = [] := by rw [h]
      rw [show (x ++ "." ++ y).data = x.data ++ '.' :: y.data from by
        simp [String.data_append, dot_data]] at hd
      simp at hd
    have htr : truthyStr (some (x ++ "." ++ y)) = true := by
      simp [truthyStr, hne]
    simp [get_filtered, truthyStr, truthyList, htr, hne, pyver_convert_eq hx hy]
  · rw [List.mem_filter]
    simp

theorem pyver_filter_spec_witness :
    pyver_convert ("3" ++ "." ++ "8") = some ("cp" ++ "3" ++ "8") ∧
      (collectPackages ["pytket-0.5.3-cp38-none-linux_x86_64.whl", "pytket-0.5.3.tar.gz"]).bind
          (get_filtered ⟨some "pytket", none, some "3.8", none⟩) =
        some [⟨"pytket", "0.5.3", "linux_x86_64", "cp38", "none", "wheel"⟩] :=
  ⟨(pyver_filter_spec "3" "8" (by decide) (by decide) [] titlepackage).1,
   (pyver_filter_spec "3" "8" (by decide) (by decide) [] titlepackage).2.2.2⟩

/-- C7: a record passes the platform filter exactly when the filter value
occurs as a substring of the record's platform or the platform is the
literal `any`; in particular a record with platform `any` passes every
platform filter value. -/
theorem platform_filter_spec (fp : String) (ps : List Package) (p : Package) :
    (p ∈ ps.filter (plat_pred fp) ↔
      p ∈ ps ∧ (fp.data <:+: p.platform.data ∨ p.platform = "any")) ∧
      (p.platform = "any" → plat_pred fp p = true) ∧
      (fp ≠ "" →
        get_filtered ⟨none, none, none, some fp⟩ ps = some (ps.filter (plat_pred fp))) := by
  refine ⟨?_, ?_, ?_⟩
  · rw [List.mem_filter]
    simp [plat_pred]
  · intro h
    simp [plat_pred, h]
  · intro h
    have htr : truthyStr (some fp) = true := by simp [truthyStr, h]
    simp [get_filtered, truthyStr, truthyList, htr, h]

theorem platform_filter_spec_witness :
    plat_pred "zzz" ⟨"p", "1", "any", "py3", "none", "sdist"⟩ = true ∧
      get_filtered ⟨none, none, none, some "zzz"⟩ [] =
        some (List.filter (plat_pred "zzz") []) :=
  ⟨(platform_filter_spec "zzz" [] ⟨"p", "1", "any", "py3", "none", "sdist"⟩).2.1 rfl,
   (platform_filter_spec "zzz" [] ⟨"p", "1", "any", "py3", "none", "sdist"⟩).2.2 (by decide)⟩

/-- C8: an empty filtered record list makes the list operation report
"No packages found matching filters" and exit with the distinguished
non-zero status 1, rendering no table at all; a non-empty list renders
the table. -/
theorem empty_result_spec (ps : List Package) :
    (ps = [] →
      print_package_list ps = ListOutcome.exited "No packages found matching filters" 1 ∧
        (∀ s, print_package_list ps ≠ ListOutcome.table s) ∧ (1 : Nat) ≠ 0) ∧
      (ps ≠ [] → print_package_list ps = ListOutcome.table (render_table ps)) := by
  constructor
  · rintro rfl
    exact ⟨rfl, fun s h => ListOutcome.noConfusion h, by decide⟩
  · intro h
    cases ps with
    | nil => exact absurd rfl h
    | cons a t => rfl

theorem empty_result_spec_witness :
    print_package_list [] = ListOutcome.exited "No packages found matching filters" 1 ∧
      print_package_list [⟨"pytket", "0.5.3", "any", "py3", "none", "sdist"⟩] =
        ListOutcome.table (render_table [⟨"pytket", "0.5.3", "any", "py3", "none", "sdist"⟩]) :=
  ⟨((empty_result_spec []).1 rfl).1,
   (empty_result_spec [⟨"pytket", "0.5.3", "any", "py3", "none", "sdist"⟩]).2 (by simp)⟩

/-- C10: a filter field passed as the empty string behaves exactly like an
unset filter — the guard tests Python truthiness, not presence — and with
every string filter set to the empty string the whole input sequence
passes unchanged. -/
theorem empty_string_filter_unset (ps : List Package) (nm py pl : Option String)
    (vv : Option (List String)) :
    get_filtered ⟨some "", vv, py, pl⟩ ps = get_filtered ⟨none, vv, py, pl⟩ ps ∧
      get_filtered ⟨nm, vv, some "", pl⟩ ps = get_filtered ⟨nm, vv, none, pl⟩ ps ∧
      get_filtered ⟨nm, vv, py, some ""⟩ ps = get_filtered ⟨nm, vv, py, none⟩ ps ∧
      get_filtered ⟨some "", none, some "", some ""⟩ ps = some ps := by
  refine ⟨?_, ?_, ?_, ?_⟩ <;> simp [get_filtered, truthyStr, truthyList]

theorem foldl_max_acc (l : List Nat) (a : Nat) :
    l.foldl max a = max a (l.foldl max 0) := by
  induction l generalizing a with
  | nil => simp
  | cons b t ih =>
    simp only [List.foldl_cons]
    rw [ih (max a b), ih (max 0 b), Nat.zero_max, Nat.max_assoc]

theorem pymax_cons (a : Nat) (l : List Nat) : pymax (a :: l) = max a (pymax l) := by
  unfold pymax
  simp only [List.foldl_cons]
  rw [foldl_max_acc l (max 0 a), Nat.zero_max]

theorem colMax_cons (sel : Package → String) (p : Package) (ps : List Package) :
    colMax sel (p :: ps) = max (sel p).length (colMax sel ps) := by
  unfold colMax
  rw [List.map_cons, pymax_cons]

theorem tableWidths_eq_specWidths (ps : List Package) : tableWidths ps = specWidths ps := by
  have hname : ("name" : String).length = 4 := rfl
  have hver : ("version" : String).length = 7 := rfl
  have hpy : ("python" : String).length = 6 := rfl
  have hplat : ("platform" : String).length = 8 := rfl
  have htype : ("type" : String).length = 4 := rfl
  have hsep : sepCell.length = 8 := rfl
  unfold tableWidths specWidths
  simp only [colMax_cons, titlepackage, sepackage, hname, hver, hpy, hplat, htype, hsep]

/-- C9 counterexample: at the single record with short fields
`abcde / 1 / py3 / any / sdist`, the code's rendered table differs from
the table whose column widths are the maximum over the header text and
the data values only: the code also counts the 8-character separator
cells, so every column here is 8 wide instead of 5/7/6/8/5. -/
theorem render_width_counterexample :
    render_table [⟨"abcde", "1", "any", "py3", "none", "sdist"⟩] ≠
      claimTable [⟨"abcde", "1", "any", "py3", "none", "sdist"⟩] := by
  decide

/-- C9 (amended): for every record sequence the formatter produces the
table whose first row is the header (`name`, `version`, `python`,
`platform`, `type`), whose second row has one 8-character run of `=` per
column, and in which every cell is right-aligned to a width equal to the
maximum length of any value in its column, the header text and the
8-character separator cell included. -/
theorem render_table_spec (ps : List Package) : render_table ps = specTable ps := by
  unfold render_table specTable
  rw [tableWidths_eq_specWidths]
  rfl

end Pypig
